import Mathlib

/-!
# Verification of the job-queue core of `opensearch-docling-graphrag`

This development shallowly embeds the durable job queue of
`src/src/job_queue/job_manager.py` (class `JobManager` over one SQLite table
`jobs`), the example multi-stage handler of
`src/src/job_queue/document_handler.py` (`process_document_job`), and the
batch-embedding fallback of `src/src/rag/ollama_client.py`
(`OllamaClient.generate_embeddings_batch`).

Modelling conventions:
* A SQLite row of the `jobs` table is a `Job`; the table is a `Store`, a list
  of rows in insertion (rowid) order.  `job_id` is the primary key, so stores
  of interest have pairwise distinct ids (`List.Nodup` hypothesis where
  needed).
* Timestamps are produced by `datetime.utcnow().isoformat()` — ISO-8601
  strings whose lexicographic order agrees with chronological order — so they
  are modelled as `Nat`, with the caller passing the current clock value.
* A SQL `UPDATE … WHERE job_id = ?` maps over all rows, rewriting exactly the
  rows whose `job_id` matches (`updateRow`).
* `_get_next_job` holds `self.lock` (a `threading.Lock`) around its
  SELECT + UPDATE, so every concurrent execution of claims is equivalent to
  some sequence of atomic `getNextJob` applications; `claimSeq` quantifies
  over all such sequences.
* Python exceptions are values: a handler either returns a result or raises
  a message (`HandlerResult`); `_process_job` pattern-matches on that, which
  is exactly its `try`/`except` structure.
-/

/-- `JobStatus` enumeration of `job_manager.py`. -/
inductive JobStatus where
  | pending
  | processing
  | completed
  | failed
  | cancelled
deriving DecidableEq, Repr

/-- One row of the `jobs` table (schema created in `_init_database`).
`payload`, `result` are JSON text as stored (`json.dumps`); `error` is text;
timestamps are modelled as `Nat` (see header). -/
structure Job where
  job_id : String
  job_type : String
  status : JobStatus
  priority : Int
  payload : String
  result : Option String
  error : Option String
  created_at : Nat
  started_at : Option Nat
  completed_at : Option Nat
  progress : Int
  total_steps : Int
deriving DecidableEq, Repr

/-- The `jobs` table: rows in insertion (rowid) order. -/
abbrev Store := List Job

/-- The ids of all rows, in order. -/
def ids (s : Store) : List String := s.map (fun j => j.job_id)

/-- `SELECT * FROM jobs WHERE job_id = ?` (point lookup on the primary key):
first row with the given id. -/
def findJob (s : Store) (i : String) : Option Job :=
  s.find? (fun j => decide (j.job_id = i))

/-- Status of the row with id `i`, if present. -/
def statusOf (s : Store) (i : String) : Option JobStatus :=
  (findJob s i).map (fun j => j.status)

/-- `result` column of the row with id `i` (outer `Option` = row present). -/
def resultOf (s : Store) (i : String) : Option (Option String) :=
  (findJob s i).map (fun j => j.result)

/-- `error` column of the row with id `i`. -/
def errorOf (s : Store) (i : String) : Option (Option String) :=
  (findJob s i).map (fun j => j.error)

/-- `progress` column of the row with id `i`. -/
def progressOf (s : Store) (i : String) : Option Int :=
  (findJob s i).map (fun j => j.progress)

/-- `started_at` column of the row with id `i`. -/
def startedOf (s : Store) (i : String) : Option (Option Nat) :=
  (findJob s i).map (fun j => j.started_at)

/-- `completed_at` column of the row with id `i`. -/
def completedOf (s : Store) (i : String) : Option (Option Nat) :=
  (findJob s i).map (fun j => j.completed_at)

/-- Number of PENDING rows. -/
def pendingCount (s : Store) : Nat :=
  (s.filter (fun j => decide (j.status = JobStatus.pending))).length

/-- `UPDATE jobs SET … WHERE job_id = ?`: rewrite every row whose id matches. -/
def updateRow (s : Store) (i : String) (g : Job → Job) : Store :=
  s.map (fun j => if j.job_id = i then g j else j)

/-- `JobManager.submit_job`: `INSERT INTO jobs (job_id, job_type, status,
priority, payload, created_at) VALUES (…)` with status PENDING and the
schema defaults `progress = 0`, `total_steps = 100`, NULL result/error and
NULL `started_at`/`completed_at`. -/
def submit_job (s : Store) (job_id job_type payload : String)
    (priority : Int) (now : Nat) : Store :=
  s ++ [{ job_id := job_id
          job_type := job_type
          status := JobStatus.pending
          priority := priority
          payload := payload
          result := none
          error := none
          created_at := now
          started_at := none
          completed_at := none
          progress := 0
          total_steps := 100 }]

/-- The row-level effect of `JobManager.update_job_status`:
`status` is set unconditionally to the argument; `started_at := now` iff the
new status is PROCESSING; `completed_at := now` iff it is COMPLETED, FAILED
or CANCELLED; `progress` is written iff a progress argument was passed
(`if progress is not None`); `error` is written iff the error argument is a
truthy (non-`None`, non-empty) string (`if error:`). -/
def applyStatus (st : JobStatus) (progress : Option Int)
    (error : Option String) (now : Nat) (j : Job) : Job :=
  let j1 := { j with status := st }
  let j2 :=
    if st = JobStatus.processing then { j1 with started_at := some now }
    else if st = JobStatus.completed ∨ st = JobStatus.failed ∨
        st = JobStatus.cancelled then { j1 with completed_at := some now }
    else j1
  let j3 := match progress with
    | some p => { j2 with progress := p }
    | none => j2
  match error with
  | some e => if e = "" then j3 else { j3 with error := some e }
  | none => j3

/-- `JobManager.update_job_status`. -/
def update_job_status (s : Store) (i : String) (st : JobStatus)
    (progress : Option Int) (error : Option String) (now : Nat) : Store :=
  updateRow s i (applyStatus st progress error now)

/-- `JobManager.update_job_result`: `UPDATE jobs SET result = ? WHERE
job_id = ?`. -/
def update_job_result (s : Store) (i : String) (r : String) : Store :=
  updateRow s i (fun j => { j with result := some r })

/-- The `ORDER BY priority DESC, created_at ASC` strict order of
`_get_next_job`: `a` sorts strictly before `b`. -/
def Better (a b : Job) : Prop :=
  b.priority < a.priority ∨
    (a.priority = b.priority ∧ a.created_at < b.created_at)

instance (a b : Job) : Decidable (Better a b) := by
  unfold Better; exact inferInstance

/-- First row of a candidate list under `ORDER BY priority DESC, created_at
ASC`: earlier rows (smaller rowid) win residual ties, matching the scan order
of the index `idx_status_priority`. -/
def pickBest : List Job → Option Job
  | [] => none
  | j :: js =>
    match pickBest js with
    | none => some j
    | some k => if Better k j then some k else some j

/-- The claiming UPDATE of `_get_next_job`: `SET status = PROCESSING,
started_at = now`. -/
def markProcessing (now : Nat) (j : Job) : Job :=
  { j with status := JobStatus.processing, started_at := some now }

/-- `JobManager._get_next_job` (the body of its `with self.lock:` critical
section): select the first PENDING row under `ORDER BY priority DESC,
created_at ASC LIMIT 1`; if present, set it to PROCESSING with
`started_at = now` and return the pre-update row (the code turns the row
into a dict before the UPDATE); else return `none` leaving the table
untouched. -/
def getNextJob (s : Store) (now : Nat) : Option Job × Store :=
  match pickBest (s.filter (fun j => decide (j.status = JobStatus.pending))) with
  | none => (none, s)
  | some j => (some j, updateRow s j.job_id (markProcessing now))

/-- A sequence of serialized `_get_next_job` calls (one clock value per
poll), collecting the successfully returned jobs and threading the table. -/
def claimSeq (s : Store) : List Nat → List Job × Store
  | [] => ([], s)
  | t :: ts =>
    match getNextJob s t with
    | (none, s1) => claimSeq s1 ts
    | (some j, s1) =>
      let r := claimSeq s1 ts
      (j :: r.1, r.2)

/-- Outcome of running a Python handler: it returns a value (`ok`, carrying
the JSON of the returned dict, or `none` when the handler returned `None` —
`_process_job` replaces a falsy result by `{}`), or it raises an exception
whose `str(e)` is the carried message. -/
inductive HandlerResult where
  | ok (r : Option String)
  | exn (msg : String)

/-- A registered handler: `handler(job_id, payload, self)` may read and
update the store through the manager it is given, and ends in a
`HandlerResult`. -/
def Handler : Type := String → String → Store → Store × HandlerResult

/-- The `job_handlers` dict: lookup by job type (`self.job_handlers.get`). -/
def Handlers : Type := String → Option Handler

/-- `JobManager._process_job`: look up the handler for `job.job_type` —
a missing handler raises `ValueError(f"No handler registered for job type:
{job_type}")`; run the handler; on a returned value, persist it via
`update_job_result` (with `result or {}`) and mark COMPLETED with
`progress=100`; any exception is caught by the enclosing `except` and the
job is marked FAILED with `error=str(e)`. -/
def processJob (handlers : Handlers) (s : Store) (j : Job) (now : Nat) :
    Store :=
  match handlers j.job_type with
  | none =>
    update_job_status s j.job_id JobStatus.failed none
      (some ("No handler registered for job type: " ++ j.job_type)) now
  | some h =>
    match h j.job_id j.payload s with
    | (s1, HandlerResult.ok r) =>
      update_job_status (update_job_result s1 j.job_id (r.getD "\x7b\x7d"))
        j.job_id JobStatus.completed (some 100) none now
    | (s1, HandlerResult.exn m) =>
      update_job_status s1 j.job_id JobStatus.failed none (some m) now

/-- One iteration of `JobManager._worker_loop`: claim the next job and
process it; when the queue is empty the loop only sleeps. -/
def workerStep (handlers : Handlers) (s : Store) (now : Nat) : Store :=
  match getNextJob s now with
  | (none, s1) => s1
  | (some j, s1) => processJob handlers s1 j now

/-- A run of the worker loop, one clock value per iteration. -/
def workerRun (handlers : Handlers) (s : Store) : List Nat → Store
  | [] => s
  | t :: ts => workerRun handlers (workerStep handlers s t) ts

/-- The attribute names available on a `JobManager` instance: the instance
attributes assigned in `JobManager.__init__` plus the methods of
`class JobManager`.  The enum `JobStatus` is a module-level class of
`job_manager.py`, not an attribute of `JobManager`, so it is absent. -/
def jobManagerAttrs : List String :=
  ["db_path", "max_workers", "workers", "running", "lock", "job_handlers",
   "register_handler", "submit_job", "get_job", "get_all_jobs",
   "update_job_status", "update_job_result", "get_stats", "start", "stop"]

/-- `doc_data` returned by `DoclingProcessor.process_document`, restricted
to the fields `process_document_job` reads: `chunks` (each chunk's `text`)
and `metadata` (kept opaque). -/
structure DocData where
  chunks : List String
  metadata : String

/-- The dict returned by `process_document_job` on success. -/
structure DocResult where
  document_id : String
  file_name : String
  output_file : String
  num_chunks : Nat
  metadata : String
deriving DecidableEq, Repr

/-- One observable action of `process_document_job`: a progress callback
into the job manager, or a call to an external collaborator. -/
inductive HandlerEvent where
  | progressUpdate (job_id : String) (st : JobStatus) (progress : Int)
  | convertDoc (file_path : String)
  | embedChunk (text : String)
  | indexDoc (document_id : String)
  | buildGraph (document_id : String)
  | saveOutput (dir : String)
deriving DecidableEq, Repr

/-- The progress value reported by an event, if it is a progress callback. -/
def progressEvent : HandlerEvent → Option Int
  | HandlerEvent.progressUpdate _ _ p => some p
  | _ => none

/-- `process_document_job` of `document_handler.py`, as the trace of its
manager callbacks and collaborator calls plus its outcome.  The external
collaborators are opaque parameters (`convert` for
`DoclingProcessor.process_document`, `saveOut` for
`DoclingProcessor.save_output`).  Every progress callback in the source is
written `job_manager.update_job_status(job_id, job_manager.JobStatus.…)`;
the attribute access `job_manager.JobStatus` is resolved against
`jobManagerAttrs` and raises `AttributeError` when absent, before any
progress is reported (document_handler.py line 53 is the first such
access). -/
def process_document_job (convert : String → DocData)
    (saveOut : DocData → String → String)
    (job_id file_path file_name document_id : String) :
    List HandlerEvent × Except String DocResult :=
  if jobManagerAttrs.contains "JobStatus" then
    let doc_data := convert file_path
    ([HandlerEvent.progressUpdate job_id JobStatus.processing 10,
      HandlerEvent.convertDoc file_path,
      HandlerEvent.progressUpdate job_id JobStatus.processing 30]
     ++ doc_data.chunks.map HandlerEvent.embedChunk
     ++ [HandlerEvent.progressUpdate job_id JobStatus.processing 50,
         HandlerEvent.indexDoc document_id,
         HandlerEvent.progressUpdate job_id JobStatus.processing 70,
         HandlerEvent.buildGraph document_id,
         HandlerEvent.progressUpdate job_id JobStatus.processing 90,
         HandlerEvent.saveOutput "output",
         HandlerEvent.progressUpdate job_id JobStatus.processing 95],
     Except.ok
       { document_id := document_id
         file_name := file_name
         output_file := saveOut doc_data "output"
         num_chunks := doc_data.chunks.length
         metadata := doc_data.metadata })
  else
    ([], Except.error "JobManager object has no attribute JobStatus")

/-- Replaying a handler trace against the store: each
`update_job_status(job_id, PROCESSING, progress=p)` callback is applied;
collaborator calls do not touch the `jobs` table. -/
def applyEvent (now : Nat) (s : Store) : HandlerEvent → Store
  | HandlerEvent.progressUpdate i st p =>
    update_job_status s i st (some p) none now
  | _ => s

/-- Replay a whole trace. -/
def runTrace (now : Nat) (s : Store) (evs : List HandlerEvent) : Store :=
  evs.foldl (applyEvent now) s

/-- `OllamaClient.generate_embeddings_batch`: one embedding per input text;
a raising `generate_embedding` call (modelled by `embed` returning `none`)
is replaced by the zero-vector fallback `[0.0] * 768`. -/
def generate_embeddings_batch (embed : String → Option (List Float))
    (texts : List String) : List (List Float) :=
  texts.map (fun t =>
    match embed t with
    | some e => e
    | none => List.replicate 768 (0.0 : Float))

/-- `process_document_job` as a `Handler` registered with the manager:
replay its callback trace against the store and convert its outcome
(`encode` stands for `json.dumps` of the result dict; the payload fields
`file_path`/`file_name`/`document_id` are the ones extracted from the
payload by the handler). -/
def documentHandler (convert : String → DocData)
    (saveOut : DocData → String → String) (encode : DocResult → String)
    (file_path file_name document_id : String) (clock : Nat) : Handler :=
  fun job_id _payload s =>
    let r := process_document_job convert saveOut job_id file_path
      file_name document_id
    (runTrace clock s r.1,
     match r.2 with
     | Except.ok d => HandlerResult.ok (some (encode d))
     | Except.error m => HandlerResult.exn m)

/-! ## Basic lemmas about lookups and row updates -/

theorem findJob_id {s : Store} {i : String} {r : Job}
    (h : findJob s i = some r) : r.job_id = i := by
  have := List.find?_some h
  simpa using this

theorem findJob_mem {s : Store} {i : String} {r : Job}
    (h : findJob s i = some r) : r ∈ s :=
  List.mem_of_find?_eq_some h

theorem findJob_updateRow (s : Store) (target : String) (g : Job → Job)
    (hg : ∀ j, (g j).job_id = j.job_id) (i : String) :
    findJob (updateRow s target g) i
      = (findJob s i).map (fun j => if j.job_id = target then g j else j) := by
  induction s with
  | nil => rfl
  | cons a l ih =>
    have hid : (if a.job_id = target then g a else a).job_id = a.job_id := by
      by_cases hat : a.job_id = target <;> simp [hat, hg]
    simp only [findJob, updateRow, List.map_cons] at ih ⊢
    by_cases hai : a.job_id = i
    · rw [List.find?_cons_of_pos _ (by simpa [hid] using hai),
        List.find?_cons_of_pos _ (by simp [hai])]
      rfl
    · rw [List.find?_cons_of_neg _ (by simp [hid, hai]),
        List.find?_cons_of_neg _ (by simp [hai])]
      exact ih

theorem findJob_updateRow_ne (s : Store) (target : String) (g : Job → Job)
    (hg : ∀ j, (g j).job_id = j.job_id) (i : String) (hne : i ≠ target) :
    findJob (updateRow s target g) i = findJob s i := by
  rw [findJob_updateRow s target g hg i]
  cases h : findJob s i with
  | none => rfl
  | some r =>
    have hr : r.job_id = i := findJob_id h
    simp [hr, hne]

theorem findJob_updateRow_self (s : Store) (target : String) (g : Job → Job)
    (hg : ∀ j, (g j).job_id = j.job_id) {r : Job}
    (h : findJob s target = some r) :
    findJob (updateRow s target g) target = some (g r) := by
  rw [findJob_updateRow s target g hg target, h]
  have hr : r.job_id = target := findJob_id h
  simp [hr]

theorem ids_updateRow (s : Store) (target : String) (g : Job → Job)
    (hg : ∀ j, (g j).job_id = j.job_id) :
    ids (updateRow s target g) = ids s := by
  induction s with
  | nil => rfl
  | cons a l ih =>
    have hid : (if a.job_id = target then g a else a).job_id = a.job_id := by
      by_cases hat : a.job_id = target <;> simp [hat, hg]
    simp only [ids, updateRow, List.map_cons] at ih ⊢
    rw [hid]
    exact congrArg _ ih

theorem updateRow_of_forall_ne (s : Store) (i : String) (g : Job → Job)
    (h : ∀ r ∈ s, r.job_id ≠ i) : updateRow s i g = s := by
  induction s with
  | nil => rfl
  | cons a l ih =>
    simp only [updateRow, List.map_cons]
    rw [if_neg (h a (List.mem_cons_self a l))]
    exact congrArg _ (ih (fun r hr => h r (List.mem_cons_of_mem a hr)))

theorem findJob_of_mem_nodup {s : Store} {j : Job}
    (hnd : (ids s).Nodup) (hm : j ∈ s) : findJob s j.job_id = some j := by
  induction s with
  | nil => cases hm
  | cons a l ih =>
    simp only [ids, List.map_cons, List.nodup_cons] at hnd
    rcases List.mem_cons.mp hm with h | h
    · subst h
      simp only [findJob]
      rw [List.find?_cons_of_pos _ (by simp)]
    · have hane : ¬ a.job_id = j.job_id := by
        intro he
        exact hnd.1 (he ▸ List.mem_map_of_mem (fun x => x.job_id) h)
      simp only [findJob] at ih ⊢
      rw [List.find?_cons_of_neg _ (by simp [hane])]
      exact ih hnd.2 h

theorem findJob_isSome_of_mem {s : Store} {j : Job} (hm : j ∈ s) :
    ∃ r, findJob s j.job_id = some r := by
  induction s with
  | nil => cases hm
  | cons a l ih =>
    by_cases ha : a.job_id = j.job_id
    · refine ⟨a, ?_⟩
      simp only [findJob]
      rw [List.find?_cons_of_pos _ (by simp [ha])]
    · rcases List.mem_cons.mp hm with h | h
      · exact absurd (h ▸ rfl) ha
      · rcases ih h with ⟨r, hr⟩
        refine ⟨r, ?_⟩
        simp only [findJob] at hr ⊢
        rw [List.find?_cons_of_neg _ (by simp [ha])]
        exact hr

/-! ## The `ORDER BY priority DESC, created_at ASC` selection -/

theorem better_irrefl (a : Job) : ¬ Better a a := by
  unfold Better; omega

theorem better_asymm {a b : Job} (h : Better a b) : ¬ Better b a := by
  unfold Better at *; omega

theorem not_better_trans {a b c : Job} (h1 : ¬ Better b a)
    (h2 : ¬ Better c b) : ¬ Better c a := by
  unfold Better at *; omega

theorem pickBest_mem : ∀ {l : List Job} {j : Job},
    pickBest l = some j → j ∈ l := by
  intro l
  induction l with
  | nil => intro j h; cases h
  | cons a t ih =>
    intro j h
    cases hp : pickBest t with
    | none =>
      simp only [pickBest, hp] at h
      cases h
      exact List.mem_cons_self a t
    | some k =>
      simp only [pickBest, hp] at h
      by_cases hb : Better k a
      · rw [if_pos hb] at h
        cases h
        exact List.mem_cons_of_mem a (ih hp)
      · rw [if_neg hb] at h
        cases h
        exact List.mem_cons_self a t

theorem pickBest_eq_none {l : List Job} : pickBest l = none ↔ l = [] := by
  cases l with
  | nil => simp [pickBest]
  | cons a t =>
    simp only [pickBest]
    cases hp : pickBest t with
    | none => simp
    | some k => by_cases hb : Better k a <;> simp [hb]

theorem pickBest_not_better : ∀ {l : List Job} {j : Job},
    pickBest l = some j → ∀ x ∈ l, ¬ Better x j := by
  intro l
  induction l with
  | nil => intro j h; cases h
  | cons a t ih =>
    intro j h x hx
    cases hp : pickBest t with
    | none =>
      simp only [pickBest, hp] at h
      cases h
      rcases List.mem_cons.mp hx with hxa | hxt
      · subst hxa; exact better_irrefl x
      · exact absurd (pickBest_eq_none.mp hp ▸ hxt) (List.not_mem_nil x)
    | some k =>
      simp only [pickBest, hp] at h
      by_cases hb : Better k a
      · rw [if_pos hb] at h
        cases h
        rcases List.mem_cons.mp hx with hxa | hxt
        · subst hxa
          exact better_asymm hb
        · exact ih hp x hxt
      · rw [if_neg hb] at h
        cases h
        rcases List.mem_cons.mp hx with hxa | hxt
        · subst hxa; exact better_irrefl x
        · exact not_better_trans hb (ih hp x hxt)

/-! ## Characterisation of `_get_next_job` -/

theorem updateRow_cons (a : Job) (l : List Job) (i : String) (g : Job → Job) :
    updateRow (a :: l) i g
      = (if a.job_id = i then g a else a) :: updateRow l i g := rfl

theorem getNextJob_none {s : Store} {now : Nat} {s2 : Store}
    (h : getNextJob s now = (none, s2)) : s2 = s ∧ pendingCount s = 0 := by
  unfold getNextJob at h
  cases hp : pickBest (s.filter fun j => decide (j.status = JobStatus.pending)) with
  | none =>
    simp only [hp, Prod.mk.injEq] at h
    refine ⟨h.2.symm, ?_⟩
    have := pickBest_eq_none.mp hp
    simp [pendingCount, this]
  | some j => simp [hp] at h

theorem getNextJob_of_no_pending {s : Store} (now : Nat)
    (h : pendingCount s = 0) : getNextJob s now = (none, s) := by
  have hf : s.filter (fun j => decide (j.status = JobStatus.pending)) = [] :=
    List.length_eq_zero.mp h
  unfold getNextJob
  rw [hf]
  rfl

theorem getNextJob_some {s : Store} {now : Nat} {j : Job} {s2 : Store}
    (h : getNextJob s now = (some j, s2)) :
    j ∈ s ∧ j.status = JobStatus.pending ∧
      s2 = updateRow s j.job_id (markProcessing now) ∧
      ∀ r ∈ s, r.status = JobStatus.pending → ¬ Better r j := by
  unfold getNextJob at h
  cases hp : pickBest (s.filter fun j => decide (j.status = JobStatus.pending)) with
  | none => simp [hp] at h
  | some k =>
    simp only [hp, Prod.mk.injEq, Option.some.injEq] at h
    obtain ⟨hkj, hs2⟩ := h
    subst hkj
    have hmem := pickBest_mem hp
    have hmf := List.mem_filter.mp hmem
    refine ⟨hmf.1, by simpa using hmf.2, hs2.symm, ?_⟩
    intro r hr hrp
    exact pickBest_not_better hp r (List.mem_filter.mpr ⟨hr, by simpa using hrp⟩)

theorem getNextJob_isSome_of_pending {s : Store} (now : Nat)
    (h : 0 < pendingCount s) :
    ∃ j s2, getNextJob s now = (some j, s2) := by
  cases hgj : getNextJob s now with
  | mk o s2 =>
    cases o with
    | none =>
      have := (getNextJob_none hgj).2
      omega
    | some j => exact ⟨j, s2, rfl⟩

theorem ids_getNextJob (s : Store) (now : Nat) :
    ids (getNextJob s now).2 = ids s := by
  cases hgj : getNextJob s now with
  | mk o s2 =>
    cases o with
    | none => simp [(getNextJob_none hgj).1]
    | some j =>
      obtain ⟨_, _, hs2, _⟩ := getNextJob_some hgj
      simp only
      rw [hs2]
      exact ids_updateRow s _ _ (fun _ => rfl)

theorem statusOf_claim_self {s : Store} {now : Nat} {j : Job} {s2 : Store}
    (hnd : (ids s).Nodup) (h : getNextJob s now = (some j, s2)) :
    statusOf s2 j.job_id = some JobStatus.processing ∧
      startedOf s2 j.job_id = some (some now) := by
  obtain ⟨hm, _, hs2, _⟩ := getNextJob_some h
  have hf : findJob s j.job_id = some j := findJob_of_mem_nodup hnd hm
  have hf2 : findJob s2 j.job_id = some (markProcessing now j) := by
    rw [hs2]
    exact findJob_updateRow_self s j.job_id (markProcessing now) (fun _ => rfl) hf
  simp [statusOf, startedOf, hf2, markProcessing]

theorem findJob_claim_other {s : Store} {now : Nat} {j : Job} {s2 : Store}
    (h : getNextJob s now = (some j, s2)) (i : String) (hne : i ≠ j.job_id) :
    findJob s2 i = findJob s i := by
  obtain ⟨_, _, hs2, _⟩ := getNextJob_some h
  rw [hs2]
  exact findJob_updateRow_ne s j.job_id (markProcessing now) (fun _ => rfl) i hne

/-! ## Counting PENDING rows -/

theorem pendingCount_cons (a : Job) (l : List Job) :
    pendingCount (a :: l)
      = (if a.status = JobStatus.pending then 1 else 0) + pendingCount l := by
  simp only [pendingCount, List.filter_cons]
  by_cases h : a.status = JobStatus.pending <;> simp [h] <;> omega

theorem pendingCount_pos {s : Store} {j : Job} (hm : j ∈ s)
    (hp : j.status = JobStatus.pending) : 0 < pendingCount s := by
  induction s with
  | nil => cases hm
  | cons a l ih =>
    rw [pendingCount_cons]
    rcases List.mem_cons.mp hm with h | h
    · subst h; simp [hp]
    · have := ih h; omega

theorem pendingCount_claim {s : Store} {j : Job} {t : Nat}
    (hnd : (ids s).Nodup) (hm : j ∈ s) (hp : j.status = JobStatus.pending) :
    pendingCount (updateRow s j.job_id (markProcessing t))
      = pendingCount s - 1 := by
  induction s with
  | nil => cases hm
  | cons a l ih =>
    simp only [ids, List.map_cons, List.nodup_cons] at hnd
    rcases List.mem_cons.mp hm with h | h
    · subst h
      have hrest : updateRow l j.job_id (markProcessing t) = l :=
        updateRow_of_forall_ne _ _ _
          (fun r hr he => hnd.1 (he ▸ List.mem_map_of_mem (fun x => x.job_id) hr))
      rw [updateRow_cons, if_pos rfl, hrest, pendingCount_cons,
        pendingCount_cons]
      simp [markProcessing, hp]
    · have haj : ¬ a.job_id = j.job_id :=
        fun he => hnd.1 (he ▸ List.mem_map_of_mem (fun x => x.job_id) h)
      have hpos := pendingCount_pos h hp
      rw [updateRow_cons, if_neg haj, pendingCount_cons, pendingCount_cons,
        ih hnd.2 h]
      by_cases ha : a.status = JobStatus.pending <;> simp [ha] <;> omega

/-! ## Invariants of sequences of claims -/

theorem claimSeq_preserve {i : String} {st : JobStatus}
    (hne : st ≠ JobStatus.pending) :
    ∀ {ts : List Nat} {s : Store}, (ids s).Nodup → statusOf s i = some st →
      statusOf (claimSeq s ts).2 i = some st ∧
        i ∉ (claimSeq s ts).1.map (fun j => j.job_id) := by
  intro ts
  induction ts with
  | nil =>
    intro s _ hst
    exact ⟨hst, by simp [claimSeq]⟩
  | cons t ts ih =>
    intro s hnd hst
    cases hgj : getNextJob s t with
    | mk o s1 =>
      cases o with
      | none =>
        obtain ⟨he, _⟩ := getNextJob_none hgj
        subst he
        simp only [claimSeq, hgj]
        exact ih hnd hst
      | some j =>
        obtain ⟨hm, hp, hs1, _⟩ := getNextJob_some hgj
        have hij : i ≠ j.job_id := by
          intro he
          rw [he, statusOf, findJob_of_mem_nodup hnd hm] at hst
          simp only [Option.map_some', Option.some.injEq] at hst
          exact hne (hst ▸ hp ▸ rfl)
        have hnd1 : (ids s1).Nodup := by
          rw [hs1, ids_updateRow s j.job_id (markProcessing t) (fun _ => rfl)]
          exact hnd
        have hst1 : statusOf s1 i = some st := by
          rw [statusOf, findJob_claim_other hgj i hij]
          exact hst
        obtain ⟨h1, h2⟩ := ih hnd1 hst1
        simp only [claimSeq, hgj]
        refine ⟨h1, ?_⟩
        simp only [List.map_cons, List.mem_cons]
        exact fun hc => hc.elim hij h2

theorem claimSeq_ids_nodup :
    ∀ {ts : List Nat} {s : Store}, (ids s).Nodup →
      ((claimSeq s ts).1.map (fun j => j.job_id)).Nodup := by
  intro ts
  induction ts with
  | nil => intro s _; simp [claimSeq]
  | cons t ts ih =>
    intro s hnd
    cases hgj : getNextJob s t with
    | mk o s1 =>
      cases o with
      | none =>
        obtain ⟨he, _⟩ := getNextJob_none hgj
        subst he
        simp only [claimSeq, hgj]
        exact ih hnd
      | some j =>
        have hnd1 : (ids s1).Nodup := by
          have := ids_getNextJob s t
          rw [hgj] at this
          exact this ▸ hnd
        have hproc := (statusOf_claim_self hnd hgj).1
        have hnot :=
          (@claimSeq_preserve j.job_id JobStatus.processing
            (fun h => JobStatus.noConfusion h) ts s1 hnd1 hproc).2
        simp only [claimSeq, hgj, List.map_cons, List.nodup_cons]
        exact ⟨hnot, ih hnd1⟩

theorem claimSeq_length :
    ∀ {ts : List Nat} {s : Store}, (ids s).Nodup →
      (claimSeq s ts).1.length = min ts.length (pendingCount s) := by
  intro ts
  induction ts with
  | nil => intro s _; simp [claimSeq]
  | cons t ts ih =>
    intro s hnd
    cases hgj : getNextJob s t with
    | mk o s1 =>
      cases o with
      | none =>
        obtain ⟨he, hzero⟩ := getNextJob_none hgj
        subst he
        simp only [claimSeq, hgj]
        rw [ih hnd, hzero]
        omega
      | some j =>
        obtain ⟨hm, hp, hs1, _⟩ := getNextJob_some hgj
        have hnd1 : (ids s1).Nodup := by
          have := ids_getNextJob s t
          rw [hgj] at this
          exact this ▸ hnd
        have hpc : pendingCount s1 = pendingCount s - 1 := by
          rw [hs1]
          exact pendingCount_claim hnd hm hp
        have hpos := pendingCount_pos hm hp
        simp only [claimSeq, hgj, List.length_cons]
        rw [ih hnd1, hpc]
        omega

/-! ## Field-level effect of `update_job_status` -/

theorem applyStatus_job_id (st : JobStatus) (p : Option Int)
    (e : Option String) (t : Nat) (j : Job) :
    (applyStatus st p e t j).job_id = j.job_id := by
  unfold applyStatus
  cases e <;> cases p <;>
    by_cases h1 : st = JobStatus.processing <;>
    by_cases h2 : st = JobStatus.completed ∨ st = JobStatus.failed ∨
      st = JobStatus.cancelled <;>
    simp [h1, h2] <;> split <;> rfl

theorem applyStatus_spec (st : JobStatus) (p : Option Int)
    (e : Option String) (t : Nat) (j : Job) :
    (applyStatus st p e t j).status = st ∧
    (applyStatus st p e t j).result = j.result ∧
    (applyStatus st p e t j).started_at
      = (if st = JobStatus.processing then some t else j.started_at) ∧
    (applyStatus st p e t j).completed_at
      = (if st = JobStatus.processing then j.completed_at
         else if st = JobStatus.completed ∨ st = JobStatus.failed ∨
            st = JobStatus.cancelled then some t
         else j.completed_at) ∧
    (applyStatus st p e t j).progress = p.getD j.progress ∧
    (applyStatus st p e t j).error
      = (if e.getD "" = "" then j.error else e) := by
  unfold applyStatus
  cases e <;> cases p <;>
    by_cases h1 : st = JobStatus.processing <;>
    by_cases h2 : st = JobStatus.completed ∨ st = JobStatus.failed ∨
      st = JobStatus.cancelled <;>
    simp [h1, h2] <;> split <;> simp

theorem findJob_update_status_self {s : Store} {i : String} {r : Job}
    (st : JobStatus) (p : Option Int) (e : Option String) (t : Nat)
    (h : findJob s i = some r) :
    findJob (update_job_status s i st p e t) i
      = some (applyStatus st p e t r) :=
  findJob_updateRow_self s i (applyStatus st p e t)
    (applyStatus_job_id st p e t) h

theorem findJob_update_status_ne (s : Store) (i : String) (st : JobStatus)
    (p : Option Int) (e : Option String) (t : Nat) (x : String)
    (hne : x ≠ i) :
    findJob (update_job_status s i st p e t) x = findJob s x :=
  findJob_updateRow_ne s i (applyStatus st p e t)
    (applyStatus_job_id st p e t) x hne

theorem findJob_update_result_self {s : Store} {i : String} {r : Job}
    (v : String) (h : findJob s i = some r) :
    findJob (update_job_result s i v) i = some { r with result := some v } :=
  findJob_updateRow_self s i (fun j => { j with result := some v })
    (fun _ => rfl) h

/-! ## Claim theorems -/

theorem append_ne_empty_left (a b : String) (h : 0 < a.length) :
    a ++ b ≠ "" := by
  intro he
  have h2 : (a ++ b).length = 0 := by rw [he]; rfl
  rw [String.length_append] at h2
  omega

/-- Test fixture: a freshly inserted row with the given id, type, status,
priority and creation time, all other columns at their defaults. -/
def mkJob (i ty : String) (st : JobStatus) (pri : Int) (created : Nat) :
    Job :=
  { job_id := i
    job_type := ty
    status := st
    priority := pri
    payload := "\x7b\x7d"
    result := none
    error := none
    created_at := created
    started_at := none
    completed_at := none
    progress := 0
    total_steps := 100 }

/-- C1.  No double-claim: since `_get_next_job` runs its SELECT + UPDATE
under `self.lock`, any concurrent execution of claims is a sequence of
atomic `getNextJob` steps; over every such sequence (any number of callers,
any poll times) the returned job ids are pairwise distinct, the number of
successful returns is min(polls, PENDING jobs available), and each
successful step transitions exactly its returned job from PENDING to
PROCESSING, leaving every other row unchanged. -/
theorem C1_no_double_claim (s : Store) (ts : List Nat)
    (hnd : (ids s).Nodup) :
    ((claimSeq s ts).1.map (fun j => j.job_id)).Nodup ∧
    (claimSeq s ts).1.length = min ts.length (pendingCount s) ∧
    (∀ t j s2, getNextJob s t = (some j, s2) →
      j.status = JobStatus.pending ∧
      statusOf s2 j.job_id = some JobStatus.processing ∧
      (∀ i, i ≠ j.job_id → findJob s2 i = findJob s i)) := by
  refine ⟨claimSeq_ids_nodup hnd, claimSeq_length hnd, ?_⟩
  intro t j s2 hgj
  obtain ⟨_, hp, _, _⟩ := getNextJob_some hgj
  exact ⟨hp, (statusOf_claim_self hnd hgj).1,
    fun i hi => findJob_claim_other hgj i hi⟩

/-- The §8 priority/FIFO scenario: four PENDING jobs with priorities
[5, 1, 5, 3] submitted at increasing timestamps. -/
def storeC1 : Store :=
  [mkJob "a" "process_document" JobStatus.pending 5 0,
   mkJob "b" "process_document" JobStatus.pending 1 1,
   mkJob "c" "process_document" JobStatus.pending 5 2,
   mkJob "d" "process_document" JobStatus.pending 3 3]

theorem C1_witness :
    (ids storeC1).Nodup ∧
    (((claimSeq storeC1 [10, 11, 12]).1.map (fun j => j.job_id)).Nodup ∧
     (claimSeq storeC1 [10, 11, 12]).1.length
        = min [10, 11, 12].length (pendingCount storeC1) ∧
     (∀ t j s2, getNextJob storeC1 t = (some j, s2) →
        j.status = JobStatus.pending ∧
        statusOf s2 j.job_id = some JobStatus.processing ∧
        (∀ i, i ≠ j.job_id → findJob s2 i = findJob storeC1 i))) :=
  ⟨by decide, C1_no_double_claim storeC1 [10, 11, 12] (by decide)⟩

/-- C4.  `_get_next_job` returns a PENDING row maximal by priority with the
earliest `created_at` among equal priority (FIFO tie-break), marks exactly
that row PROCESSING with `started_at = now` in the same locked operation,
and leaves every other row untouched; when a PENDING row exists it returns
one, and when none exists it returns `none` and modifies nothing. -/
theorem C4_claim_priority_fifo (s : Store) (t : Nat)
    (hnd : (ids s).Nodup) :
    (∀ j s2, getNextJob s t = (some j, s2) →
      j.status = JobStatus.pending ∧ j ∈ s ∧
      (∀ r ∈ s, r.status = JobStatus.pending →
        r.priority < j.priority ∨
          (r.priority = j.priority ∧ j.created_at ≤ r.created_at)) ∧
      statusOf s2 j.job_id = some JobStatus.processing ∧
      startedOf s2 j.job_id = some (some t) ∧
      (∀ i, i ≠ j.job_id → findJob s2 i = findJob s i)) ∧
    (0 < pendingCount s → ∃ j s2, getNextJob s t = (some j, s2)) ∧
    (pendingCount s = 0 → getNextJob s t = (none, s)) := by
  refine ⟨?_, getNextJob_isSome_of_pending t, getNextJob_of_no_pending t⟩
  intro j s2 hgj
  obtain ⟨hm, hp, _, hbest⟩ := getNextJob_some hgj
  obtain ⟨hst, hstart⟩ := statusOf_claim_self hnd hgj
  refine ⟨hp, hm, ?_, hst, hstart,
    fun i hi => findJob_claim_other hgj i hi⟩
  intro r hr hrp
  have := hbest r hr hrp
  unfold Better at this
  omega

theorem C4_witness :
    (ids storeC1).Nodup ∧
    ((claimSeq storeC1 [10, 11, 12, 13]).1.map (fun j => j.job_id))
       = ["a", "c", "d", "b"] ∧
    (∀ j s2, getNextJob storeC1 10 = (some j, s2) →
      j.status = JobStatus.pending ∧ j ∈ storeC1 ∧
      (∀ r ∈ storeC1, r.status = JobStatus.pending →
        r.priority < j.priority ∨
          (r.priority = j.priority ∧ j.created_at ≤ r.created_at)) ∧
      statusOf s2 j.job_id = some JobStatus.processing ∧
      startedOf s2 j.job_id = some (some 10) ∧
      (∀ i, i ≠ j.job_id → findJob s2 i = findJob storeC1 i)) :=
  ⟨by decide, by decide,
    (C4_claim_priority_fifo storeC1 10 (by decide)).1⟩

/-- A COMPLETED row, as left behind by a successful `_process_job`. -/
def jobDoneC2 : Job :=
  { mkJob "j1" "process_document" JobStatus.completed 0 0 with
      result := some "\x7b\x7d", started_at := some 1, completed_at := some 2,
      progress := 100 }

/-- C2, counterexample.  `update_job_status` enforces no state machine: on a
store holding one COMPLETED job, calling it with status PROCESSING moves the
row backward from COMPLETED to PROCESSING — exactly the transition the claim
says is forbidden for every operation and every status argument. -/
theorem C2_counterexample :
    statusOf [jobDoneC2] "j1" = some JobStatus.completed ∧
    statusOf (update_job_status [jobDoneC2] "j1" JobStatus.processing
        none none 5) "j1" = some JobStatus.processing := by decide

/-- C2 (amended).  The transitions the manager itself performs are forward:
`submit_job` inserts rows as PENDING and `_get_next_job` moves only a
PENDING row, to PROCESSING, touching no other row.  But `update_job_status`
itself is unguarded: it sets the matched row's status to exactly its status
argument whatever the current status, so a caller can move a row backward
(e.g. COMPLETED → PROCESSING) and terminal states are not sticky under it. -/
theorem C2_amended_no_guard :
    (∀ s i st p e t, statusOf (update_job_status s i st p e t) i
        = (statusOf s i).map (fun _ => st)) ∧
    (∀ s t j s2, (ids s).Nodup → getNextJob s t = (some j, s2) →
      j.status = JobStatus.pending ∧
      statusOf s2 j.job_id = some JobStatus.processing ∧
      (∀ i, i ≠ j.job_id → findJob s2 i = findJob s i)) ∧
    (∀ s jid ty pl pr t, findJob s jid = none →
      statusOf (submit_job s jid ty pl pr t) jid
        = some JobStatus.pending) := by
  refine ⟨?_, ?_, ?_⟩
  · intro s i st p e t
    cases hf : findJob s i with
    | none =>
      have : findJob (update_job_status s i st p e t) i = none := by
        rw [update_job_status,
          findJob_updateRow s i (applyStatus st p e t)
            (applyStatus_job_id st p e t) i, hf]
        rfl
      simp [statusOf, hf, this]
    | some r =>
      have h2 := findJob_update_status_self st p e t hf
      simp [statusOf, hf, h2, (applyStatus_spec st p e t r).1]
  · intro s t j s2 hnd hgj
    obtain ⟨_, hp, _, _⟩ := getNextJob_some hgj
    exact ⟨hp, (statusOf_claim_self hnd hgj).1,
      fun i hi => findJob_claim_other hgj i hi⟩
  · intro s jid ty pl pr t hnone
    unfold submit_job statusOf findJob
    rw [List.find?_append]
    unfold findJob at hnone
    rw [hnone]
    simp

theorem C2_witness :
    ((ids storeC1).Nodup ∧ findJob [jobDoneC2] "new" = none) ∧
    statusOf (update_job_status [jobDoneC2] "j1" JobStatus.pending
        none none 7) "j1"
      = (statusOf [jobDoneC2] "j1").map (fun _ => JobStatus.pending) ∧
    statusOf (submit_job [jobDoneC2] "new" "t" "\x7b\x7d" 0 9) "new"
      = some JobStatus.pending := by
  refine ⟨⟨by decide, by decide⟩, ?_, ?_⟩
  · exact C2_amended_no_guard.1 [jobDoneC2] "j1" JobStatus.pending none none 7
  · exact C2_amended_no_guard.2.2 [jobDoneC2] "new" "t" "\x7b\x7d" 0 9
      (by decide)

/-- A PENDING row that has never been claimed. -/
def jobPendingC5 : Job := mkJob "j5" "process_document" JobStatus.pending 0 0

/-- C5, counterexample.  The progress update (realised as
`update_job_status(id, PROCESSING, progress=p)`) is not a no-op on a job
that is not PROCESSING: on a PENDING job it changes the row — the status
becomes PROCESSING, `progress` becomes 42 and `started_at` is stamped. -/
theorem C5_counterexample :
    statusOf [jobPendingC5] "j5" = some JobStatus.pending ∧
    update_job_status [jobPendingC5] "j5" JobStatus.processing
        (some 42) none 7 ≠ [jobPendingC5] ∧
    statusOf (update_job_status [jobPendingC5] "j5" JobStatus.processing
        (some 42) none 7) "j5" = some JobStatus.processing ∧
    progressOf (update_job_status [jobPendingC5] "j5" JobStatus.processing
        (some 42) none 7) "j5" = some 42 := by decide

/-- C5 (amended).  `update_job_status` performs no status check: called with
PROCESSING and a progress value on a job in any current state, it sets the
job's status to PROCESSING, its progress to the given value and its
`started_at` to now — it is not a no-op when the job is not PROCESSING. -/
theorem C5_amended_progress_unconditional (s : Store) (i : String) (p : Int)
    (t : Nat) (r : Job) (h : findJob s i = some r) :
    statusOf (update_job_status s i JobStatus.processing (some p) none t) i
      = some JobStatus.processing ∧
    progressOf (update_job_status s i JobStatus.processing (some p) none t) i
      = some p ∧
    startedOf (update_job_status s i JobStatus.processing (some p) none t) i
      = some (some t) := by
  have h2 := findJob_update_status_self JobStatus.processing (some p) none t h
  obtain ⟨hs, _, hstart, _, hprog, _⟩ :=
    applyStatus_spec JobStatus.processing (some p) none t r
  simp only [statusOf, progressOf, startedOf, h2, Option.map_some']
  rw [hs, hprog, hstart]
  simp

theorem C5_witness :
    findJob [jobDoneC2] "j1" = some jobDoneC2 ∧
    (statusOf (update_job_status [jobDoneC2] "j1" JobStatus.processing
        (some 55) none 8) "j1" = some JobStatus.processing ∧
     progressOf (update_job_status [jobDoneC2] "j1" JobStatus.processing
        (some 55) none 8) "j1" = some 55 ∧
     startedOf (update_job_status [jobDoneC2] "j1" JobStatus.processing
        (some 55) none 8) "j1" = some (some 8)) :=
  ⟨by decide,
    C5_amended_progress_unconditional [jobDoneC2] "j1" 55 8 jobDoneC2
      (by decide)⟩

/-- C10.  Every `update_job_status` call with status PROCESSING — which is
exactly the shape of each progress report a running handler issues —
overwrites `started_at` with the current time, whatever value it held: after
any progress report, `started_at` records the time of the most recent update
rather than the moment the job was claimed. -/
theorem C10_processing_overwrites_started_at (s : Store) (i : String)
    (p : Option Int) (e : Option String) (t : Nat) (r : Job)
    (h : findJob s i = some r) :
    startedOf (update_job_status s i JobStatus.processing p e t) i
      = some (some t) := by
  have h2 := findJob_update_status_self JobStatus.processing p e t h
  obtain ⟨_, _, hstart, _, _, _⟩ :=
    applyStatus_spec JobStatus.processing p e t r
  simp only [startedOf, h2, Option.map_some']
  rw [hstart]
  simp

/-- A job claimed at time 3 (`started_at = some 3`). -/
def jobClaimedC10 : Job :=
  { mkJob "jx" "process_document" JobStatus.processing 0 0 with
      started_at := some 3 }

theorem C10_witness :
    findJob [jobClaimedC10] "jx" = some jobClaimedC10 ∧
    jobClaimedC10.started_at = some 3 ∧
    startedOf (update_job_status [jobClaimedC10] "jx" JobStatus.processing
        (some 30) none 9) "jx" = some (some 9) :=
  ⟨by decide, by decide,
    C10_processing_overwrites_started_at [jobClaimedC10] "jx" (some 30)
      none 9 jobClaimedC10 (by decide)⟩

/-- A claimed (PROCESSING) row being executed by a worker. -/
def jobProcC3 : Job :=
  { mkJob "j3" "doc" JobStatus.processing 0 0 with started_at := some 1 }

/-- A handler that raises an exception with empty text (e.g.
`raise ValueError()` in Python, for which `str(e) == ""`). -/
def exnEmptyHandler : Handler := fun _ _ s => (s, HandlerResult.exn "")

/-- A registry mapping the `doc` job type to `exnEmptyHandler`. -/
def handlersC3 : Handlers := fun ty =>
  if ty = "doc" then some exnEmptyHandler else none

/-- C3, counterexample.  A handler that raises an exception with empty text
leaves a terminal job with NEITHER result nor error set: `_process_job`
marks the job FAILED, but `update_job_status` writes the error column only
when the message is truthy (`if error:`), so the empty `str(e)` is dropped
and both columns stay NULL — refuting "exactly one of result/error is set,
never neither". -/
theorem C3_counterexample :
    statusOf (processJob handlersC3 [jobProcC3] jobProcC3 9) "j3"
      = some JobStatus.failed ∧
    resultOf (processJob handlersC3 [jobProcC3] jobProcC3 9) "j3"
      = some none ∧
    errorOf (processJob handlersC3 [jobProcC3] jobProcC3 9) "j3"
      = some none := by decide

/-- C3 (amended).  For the terminal rows `_process_job` produces from a
fresh claimed job: a COMPLETED job has a result and no error; a FAILED job
has no result, and its error is the exception text when that text is
non-empty — but a FAILED job whose exception text is empty ends with
neither result nor error set. -/
theorem C3_amended_result_error (handlers : Handlers) (s : Store) (j : Job)
    (now : Nat) :
    (handlers j.job_type = none → ∀ r, findJob s j.job_id = some r →
      r.result = none →
      statusOf (processJob handlers s j now) j.job_id
        = some JobStatus.failed ∧
      resultOf (processJob handlers s j now) j.job_id = some none ∧
      errorOf (processJob handlers s j now) j.job_id
        = some (some ("No handler registered for job type: "
            ++ j.job_type))) ∧
    (∀ h s1 res, handlers j.job_type = some h →
      h j.job_id j.payload s = (s1, HandlerResult.ok res) →
      ∀ r1, findJob s1 j.job_id = some r1 → r1.error = none →
      statusOf (processJob handlers s j now) j.job_id
        = some JobStatus.completed ∧
      resultOf (processJob handlers s j now) j.job_id
        = some (some (res.getD "\x7b\x7d")) ∧
      errorOf (processJob handlers s j now) j.job_id = some none) ∧
    (∀ h s1 m, handlers j.job_type = some h →
      h j.job_id j.payload s = (s1, HandlerResult.exn m) →
      ∀ r1, findJob s1 j.job_id = some r1 → r1.result = none →
      r1.error = none →
      statusOf (processJob handlers s j now) j.job_id
        = some JobStatus.failed ∧
      resultOf (processJob handlers s j now) j.job_id = some none ∧
      errorOf (processJob handlers s j now) j.job_id
        = some (if m = "" then none else some m)) := by
  refine ⟨?_, ?_, ?_⟩
  · intro hnone r hf hres
    have hpj : processJob handlers s j now
        = update_job_status s j.job_id JobStatus.failed none
            (some ("No handler registered for job type: " ++ j.job_type))
            now := by
      unfold processJob
      rw [hnone]
    set msg := "No handler registered for job type: " ++ j.job_type with hmsg
    have hne : msg ≠ "" :=
      append_ne_empty_left _ _ (by decide)
    have h2 := findJob_update_status_self JobStatus.failed none (some msg)
      now hf
    obtain ⟨hs, hr, _, _, _, herr⟩ :=
      applyStatus_spec JobStatus.failed none (some msg) now r
    simp only [Option.getD_some, if_neg hne] at herr
    rw [hpj]
    simp only [statusOf, resultOf, errorOf, h2, Option.map_some']
    rw [hs, hr, hres, herr]
    exact ⟨rfl, rfl, rfl⟩
  · intro h s1 res hreg hrun r1 hf1 herr1
    have hpj : processJob handlers s j now
        = update_job_status (update_job_result s1 j.job_id
            (res.getD "\x7b\x7d")) j.job_id JobStatus.completed (some 100)
            none now := by
      simp only [processJob, hreg, hrun]
    have hf2 : findJob (update_job_result s1 j.job_id (res.getD "\x7b\x7d"))
        j.job_id = some { r1 with result := some (res.getD "\x7b\x7d") } :=
      findJob_update_result_self _ hf1
    have h3 := findJob_update_status_self JobStatus.completed (some 100)
      none now hf2
    obtain ⟨hs, hr, _, _, _, herr⟩ :=
      applyStatus_spec JobStatus.completed (some 100) none now
        { r1 with result := some (res.getD "\x7b\x7d") }
    simp only [Option.getD_none, if_pos rfl] at herr
    rw [hpj]
    simp only [statusOf, resultOf, errorOf, h3, Option.map_some']
    rw [hs, hr, herr]
    exact ⟨rfl, rfl, by simp [herr1]⟩
  · intro h s1 m hreg hrun r1 hf1 hres1 herr1
    have hpj : processJob handlers s j now
        = update_job_status s1 j.job_id JobStatus.failed none (some m)
            now := by
      simp only [processJob, hreg, hrun]
    have h3 := findJob_update_status_self JobStatus.failed none (some m)
      now hf1
    obtain ⟨hs, hr, _, _, _, herr⟩ :=
      applyStatus_spec JobStatus.failed none (some m) now r1
    simp only [Option.getD_some] at herr
    rw [hpj]
    simp only [statusOf, resultOf, errorOf, h3, Option.map_some']
    rw [hs, hr, hres1, herr]
    refine ⟨rfl, rfl, ?_⟩
    by_cases hm : m = "" <;> simp [hm, herr1]

theorem C3_witness :
    (handlersC3 jobProcC3.job_type = some exnEmptyHandler ∧
     exnEmptyHandler jobProcC3.job_id jobProcC3.payload [jobProcC3]
       = ([jobProcC3], HandlerResult.exn "") ∧
     findJob [jobProcC3] jobProcC3.job_id = some jobProcC3 ∧
     jobProcC3.result = none ∧ jobProcC3.error = none) ∧
    (statusOf (processJob handlersC3 [jobProcC3] jobProcC3 9)
        jobProcC3.job_id = some JobStatus.failed ∧
     resultOf (processJob handlersC3 [jobProcC3] jobProcC3 9)
        jobProcC3.job_id = some none ∧
     errorOf (processJob handlersC3 [jobProcC3] jobProcC3 9)
        jobProcC3.job_id = some none) :=
  ⟨⟨rfl, rfl, by decide, rfl, rfl⟩,
    (C3_amended_result_error handlersC3 [jobProcC3] jobProcC3 9).2.2
      exnEmptyHandler [jobProcC3] "" rfl rfl jobProcC3 (by decide) rfl rfl⟩

theorem mem_updateRow_of_ne {s : Store} {target : String} {g : Job → Job}
    {k : Job} (hk : k ∈ s) (hne : k.job_id ≠ target) :
    k ∈ updateRow s target g := by
  unfold updateRow
  exact List.mem_map.mpr ⟨k, hk, by simp [hne]⟩

/-- A claimed (PROCESSING) row of type `docx`. -/
def jobProcC6 : Job :=
  { mkJob "j6" "docx" JobStatus.processing 0 0 with started_at := some 2 }

/-- A second, not-yet-claimed job behind it in the queue. -/
def jobPendC6 : Job := mkJob "k6" "docx" JobStatus.pending 0 1

/-- A `docx` handler raising an exception with empty text. -/
def exnEmptyHandlerC6 : Handler := fun _ _ s => (s, HandlerResult.exn "")

/-- Registry for the C6 counterexample. -/
def handlersC6 : Handlers := fun ty =>
  if ty = "docx" then some exnEmptyHandlerC6 else none

/-- C6, counterexample.  When the handler raises an exception whose text is
empty, `_process_job` does mark the job FAILED, but the error column is NOT
set to the exception's text: `update_job_status` drops a falsy error string,
so the field stays NULL rather than becoming the empty text. -/
theorem C6_counterexample :
    statusOf (processJob handlersC6 [jobProcC6] jobProcC6 9) "j6"
      = some JobStatus.failed ∧
    errorOf (processJob handlersC6 [jobProcC6] jobProcC6 9) "j6"
      = some none ∧
    ¬ errorOf (processJob handlersC6 [jobProcC6] jobProcC6 9) "j6"
      = some (some "") := by decide

/-- C6 (amended).  A raising handler is caught at the loop boundary (in the
model the exception is a value, so `_process_job` is total by construction)
and converted into a failure: the job is marked FAILED with
`completed_at = now`, its error is set to the exception's text when that
text is non-empty (an empty text leaves the error column unchanged), no
other row is touched by the failure handling, and the loop keeps serving
other jobs — any remaining PENDING job is still claimed by a later poll. -/
theorem C6_amended_exception_to_fail (handlers : Handlers) (s : Store)
    (j : Job) (now : Nat) (h : Handler) (s1 : Store) (m : String) (r1 : Job)
    (hreg : handlers j.job_type = some h)
    (hrun : h j.job_id j.payload s = (s1, HandlerResult.exn m))
    (hf : findJob s1 j.job_id = some r1) :
    statusOf (processJob handlers s j now) j.job_id
      = some JobStatus.failed ∧
    completedOf (processJob handlers s j now) j.job_id = some (some now) ∧
    errorOf (processJob handlers s j now) j.job_id
      = some (if m = "" then r1.error else some m) ∧
    (∀ i, i ≠ j.job_id →
      findJob (processJob handlers s j now) i = findJob s1 i) ∧
    (∀ k, k ∈ s1 → k.job_id ≠ j.job_id → k.status = JobStatus.pending →
      ∀ t2, ∃ j2 s3,
        getNextJob (processJob handlers s j now) t2 = (some j2, s3)) := by
  have hpj : processJob handlers s j now
      = update_job_status s1 j.job_id JobStatus.failed none (some m) now := by
    simp only [processJob, hreg, hrun]
  have h3 := findJob_update_status_self JobStatus.failed none (some m) now hf
  obtain ⟨hs, _, _, hcomp, _, herr⟩ :=
    applyStatus_spec JobStatus.failed none (some m) now r1
  simp only [Option.getD_some] at herr
  refine ⟨?_, ?_, ?_, ?_, ?_⟩
  · rw [hpj]
    simp [statusOf, h3, hs]
  · rw [hpj]
    simp only [completedOf, h3, Option.map_some']
    rw [hcomp]
    simp
  · rw [hpj]
    simp only [errorOf, h3, Option.map_some']
    rw [herr]
  · intro i hi
    rw [hpj]
    exact findJob_update_status_ne s1 j.job_id JobStatus.failed none
      (some m) now i hi
  · intro k hk hkne hkp t2
    have hkmem : k ∈ processJob handlers s j now := by
      rw [hpj]
      exact mem_updateRow_of_ne hk hkne
    exact getNextJob_isSome_of_pending t2 (pendingCount_pos hkmem hkp)

/-- A `docx` handler raising `RuntimeError("boom")`. -/
def exnBoomHandler : Handler := fun _ _ s => (s, HandlerResult.exn "boom")

/-- Registry for the C6 witness. -/
def handlersC6W : Handlers := fun ty =>
  if ty = "docx" then some exnBoomHandler else none

theorem C6_witness :
    (handlersC6W jobProcC6.job_type = some exnBoomHandler ∧
     exnBoomHandler jobProcC6.job_id jobProcC6.payload [jobProcC6, jobPendC6]
       = ([jobProcC6, jobPendC6], HandlerResult.exn "boom") ∧
     findJob [jobProcC6, jobPendC6] jobProcC6.job_id = some jobProcC6) ∧
    (statusOf (processJob handlersC6W [jobProcC6, jobPendC6] jobProcC6 9)
        jobProcC6.job_id = some JobStatus.failed ∧
     completedOf (processJob handlersC6W [jobProcC6, jobPendC6] jobProcC6 9)
        jobProcC6.job_id = some (some 9) ∧
     errorOf (processJob handlersC6W [jobProcC6, jobPendC6] jobProcC6 9)
        jobProcC6.job_id = some (some "boom") ∧
     (∀ i, i ≠ jobProcC6.job_id →
       findJob (processJob handlersC6W [jobProcC6, jobPendC6] jobProcC6 9) i
         = findJob [jobProcC6, jobPendC6] i) ∧
     (∀ k, k ∈ [jobProcC6, jobPendC6] → k.job_id ≠ jobProcC6.job_id →
       k.status = JobStatus.pending → ∀ t2, ∃ j2 s3,
         getNextJob (processJob handlersC6W [jobProcC6, jobPendC6]
           jobProcC6 9) t2 = (some j2, s3))) :=
  ⟨⟨rfl, rfl, by decide⟩,
    C6_amended_exception_to_fail handlersC6W [jobProcC6, jobPendC6]
      jobProcC6 9 exnBoomHandler [jobProcC6, jobPendC6] "boom" jobProcC6
      rfl rfl (by decide)⟩

/-- C7.  A claimed job whose type has no registered handler is immediately
marked FAILED with the error `No handler registered for job type: <type>`
(the `ValueError` raised at dispatch and caught by `_process_job`), and it
is never retried: under any further sequence of claims its row stays FAILED
and it is never returned again. -/
theorem C7_unregistered_type_fails (handlers : Handlers) (s : Store)
    (j : Job) (now : Nat) (hnone : handlers j.job_type = none)
    (hnd : (ids s).Nodup) (hm : j ∈ s) :
    statusOf (processJob handlers s j now) j.job_id
      = some JobStatus.failed ∧
    errorOf (processJob handlers s j now) j.job_id
      = some (some ("No handler registered for job type: "
          ++ j.job_type)) ∧
    completedOf (processJob handlers s j now) j.job_id = some (some now) ∧
    (∀ ts, statusOf (claimSeq (processJob handlers s j now) ts).2 j.job_id
        = some JobStatus.failed ∧
      j.job_id ∉ (claimSeq (processJob handlers s j now) ts).1.map
        (fun x => x.job_id)) := by
  have hf : findJob s j.job_id = some j := findJob_of_mem_nodup hnd hm
  have hpj : processJob handlers s j now
      = update_job_status s j.job_id JobStatus.failed none
          (some ("No handler registered for job type: " ++ j.job_type))
          now := by
    simp only [processJob, hnone]
  set msg := "No handler registered for job type: " ++ j.job_type with hmsg
  have hne : msg ≠ "" := append_ne_empty_left _ _ (by decide)
  have h3 := findJob_update_status_self JobStatus.failed none (some msg)
    now hf
  obtain ⟨hs, _, _, hcomp, _, herr⟩ :=
    applyStatus_spec JobStatus.failed none (some msg) now j
  simp only [Option.getD_some, if_neg hne] at herr
  have hstatus : statusOf (processJob handlers s j now) j.job_id
      = some JobStatus.failed := by
    rw [hpj]
    simp [statusOf, h3, hs]
  have hndf : (ids (processJob handlers s j now)).Nodup := by
    rw [hpj, update_job_status,
      ids_updateRow s j.job_id _ (applyStatus_job_id _ _ _ _)]
    exact hnd
  refine ⟨hstatus, ?_, ?_, ?_⟩
  · rw [hpj]
    simp only [errorOf, h3, Option.map_some']
    rw [herr]
  · rw [hpj]
    simp only [completedOf, h3, Option.map_some']
    rw [hcomp]
    simp
  · intro ts
    exact @claimSeq_preserve j.job_id JobStatus.failed
      (fun hx => JobStatus.noConfusion hx) ts
      (processJob handlers s j now) hndf hstatus

/-- The §8 unregistered-type scenario: a claimed job of type `unknown`
against an empty registry. -/
def jobUnkC7 : Job :=
  { mkJob "j7" "unknown" JobStatus.processing 0 0 with started_at := some 1 }

/-- The empty registry (no handler was ever registered). -/
def handlersEmpty : Handlers := fun _ => none

theorem C7_witness :
    (handlersEmpty jobUnkC7.job_type = none ∧
     (ids [jobUnkC7]).Nodup ∧ jobUnkC7 ∈ [jobUnkC7]) ∧
    (statusOf (processJob handlersEmpty [jobUnkC7] jobUnkC7 5)
        jobUnkC7.job_id = some JobStatus.failed ∧
     errorOf (processJob handlersEmpty [jobUnkC7] jobUnkC7 5)
        jobUnkC7.job_id
       = some (some ("No handler registered for job type: "
           ++ jobUnkC7.job_type)) ∧
     completedOf (processJob handlersEmpty [jobUnkC7] jobUnkC7 5)
        jobUnkC7.job_id = some (some 5) ∧
     (∀ ts, statusOf (claimSeq (processJob handlersEmpty [jobUnkC7]
          jobUnkC7 5) ts).2 jobUnkC7.job_id = some JobStatus.failed ∧
       jobUnkC7.job_id ∉ (claimSeq (processJob handlersEmpty [jobUnkC7]
          jobUnkC7 5) ts).1.map (fun x => x.job_id))) :=
  ⟨⟨rfl, by decide, by decide⟩,
    C7_unregistered_type_fails handlersEmpty [jobUnkC7] jobUnkC7 5 rfl
      (by decide) (by decide)⟩

/-- A stand-in for `DoclingProcessor.process_document`: two chunks. -/
def convertC8 : String → DocData :=
  fun _ => { chunks := ["chunk one", "chunk two"], metadata := "md" }

/-- A stand-in for `DoclingProcessor.save_output`. -/
def saveOutC8 : DocData → String → String := fun _ _ => "output/a.json"

/-- A stand-in for `json.dumps` of the result dict. -/
def encodeC8 : DocResult → String := fun r => r.document_id

/-- A claimed `process_document` job. -/
def jobC8 : Job :=
  { mkJob "j8" "process_document" JobStatus.processing 0 0 with
      started_at := some 2 }

/-- Registry with `process_document_job` registered for `process_document`,
as `app.py`/the spec intend. -/
def handlersC8 : Handlers := fun ty =>
  if ty = "process_document"
  then some (documentHandler convertC8 saveOutC8 encodeC8 "/tmp/a.pdf"
    "a.pdf" "d1" 3)
  else none

/-- C8, evaluation at the failing input.  `process_document_job` reads
`job_manager.JobStatus` at its first progress update
(`document_handler.py` line 53), but `JobManager` instances have no
`JobStatus` attribute (the enum is a module-level class), so the handler
raises `AttributeError` before reporting any progress: the trace of
callbacks is empty, the handler fails, and the worker marks the job FAILED
with the `AttributeError` text and `progress` still 0 — instead of the
claimed 10/30/50/70/90/95 reports, the result dict and COMPLETED at 100. -/
theorem C8_code_bug_attribute_error :
    (process_document_job convertC8 saveOutC8 "j8" "/tmp/a.pdf" "a.pdf"
        "d1").1 = [] ∧
    (process_document_job convertC8 saveOutC8 "j8" "/tmp/a.pdf" "a.pdf"
        "d1").2
      = Except.error "JobManager object has no attribute JobStatus" ∧
    statusOf (processJob handlersC8 [jobC8] jobC8 9) "j8"
      = some JobStatus.failed ∧
    progressOf (processJob handlersC8 [jobC8] jobC8 9) "j8" = some 0 ∧
    resultOf (processJob handlersC8 [jobC8] jobC8 9) "j8" = some none ∧
    errorOf (processJob handlersC8 [jobC8] jobC8 9) "j8"
      = some (some "JobManager object has no attribute JobStatus") :=
  ⟨rfl, rfl, by decide, by decide, by decide, by decide⟩

/-- C9.  `generate_embeddings_batch` returns exactly one embedding per
input text, and an input whose `generate_embedding` call raises (modelled
by `embed` returning `none`) contributes the zero-vector placeholder
`[0.0] * 768` at its position instead of aborting the batch. -/
theorem C9_batch_zero_vector_fallback (embed : String → Option (List Float))
    (texts : List String) :
    (generate_embeddings_batch embed texts).length = texts.length ∧
    (∀ i tx, texts.get? i = some tx → embed tx = none →
      (generate_embeddings_batch embed texts).get? i
        = some (List.replicate 768 (0.0 : Float))) := by
  constructor
  · unfold generate_embeddings_batch
    simp only [List.length_map]
  · intro i tx h1 h2
    unfold generate_embeddings_batch
    rw [List.get?_map, h1, Option.map_some', h2]

/-- An embedding backend for which the second text raises. -/
def embedC9 : String → Option (List Float) :=
  fun t => if t = "bad chunk" then none else some [1.0, 2.0]

theorem C9_witness :
    (["good chunk", "bad chunk"].get? 1 = some "bad chunk" ∧
     embedC9 "bad chunk" = none) ∧
    ((generate_embeddings_batch embedC9 ["good chunk", "bad chunk"]).length
        = ["good chunk", "bad chunk"].length ∧
     (∀ i tx, ["good chunk", "bad chunk"].get? i = some tx →
       embedC9 tx = none →
       (generate_embeddings_batch embedC9
           ["good chunk", "bad chunk"]).get? i
         = some (List.replicate 768 (0.0 : Float)))) :=
  ⟨⟨rfl, rfl⟩, C9_batch_zero_vector_fallback embedC9
    ["good chunk", "bad chunk"]⟩
